import Mathlib

/-!
# Verification of the tinfernew dispatch-center job lifecycle

Shallow embedding of `src/tinfernew/server.py`: the in-memory job table
`JOBS` (a Python dict, which preserves insertion order) is modelled as an
association list, and each HTTP handler that touches the table becomes a
pure function from the store (plus its request data) to the new store and
the response.  Side-effect sinks (Telegram messages, QR images, logging)
are omitted: they never feed back into the store.
-/

namespace Tinfernew

/-- A record of the `JOBS` dict: `{"prompt": ..., "chat_id": ..., "status": ...}`.
The code stores `status` as a plain string and nothing ever restricts its
value, so the embedding uses `String`, with the lifecycle names as literals. -/
structure Job where
  prompt : String
  chat_id : Int
  status : String
deriving Repr, DecidableEq

/-- `JOBS` is a Python dict from job id to record; dicts iterate in insertion
order, so the store is an association list in insertion order. -/
abbrev JobStore := List (String × Job)

/-- `JOBS.get(id)`: the record for `id`, or `none`. -/
def storeGet (s : JobStore) (id : String) : Option Job :=
  (s.find? (fun p => p.1 = id)).map Prod.snd

/-- Key list of the store, in insertion order. -/
def storeKeys (s : JobStore) : List String :=
  s.map Prod.fst

/-- In-place mutation `job["status"] = st` of the record found under `id`
(the id is unique in a dict, so updating every entry with that key is the
same mutation). -/
def storeSetStatus (s : JobStore) (id : String) (st : String) : JobStore :=
  s.map (fun p => if p.1 = id then (p.1, { p.2 with status := st }) else p)

/-- `JOBS[id] = j`: dict assignment — overwrite if the key exists,
append (insertion order) if it is new. -/
def storeInsert (s : JobStore) (id : String) (j : Job) : JobStore :=
  if (s.find? (fun p => p.1 = id)).isSome then
    s.map (fun p => if p.1 = id then (id, j) else p)
  else
    s ++ [(id, j)]

/-- Number of jobs currently `PENDING`. -/
def countPending (s : JobStore) : Nat :=
  (s.filter (fun p => p.2.status = "PENDING")).length

/-- The JSON body of an inbound GlobePay notification, as the fields the
spec says a notification carries.  `payment_notify` reads only
`partner_order_id` via `data.get`; the `sign` and `total_fee` fields are
present in the wire format but never inspected by the handler. -/
structure PaymentNotification where
  partner_order_id : Option String
  sign : Option String
  total_fee : Option Int
deriving Repr, DecidableEq

/-- An HTTP response of the notify endpoint: status code plus the value of
the `result` key of the JSON body. -/
structure HttpResponse where
  status_code : Nat
  result : String
deriving Repr, DecidableEq

/-- `POST /api/payment-notify` (`payment_notify` in `server.py`), on the
non-exceptional path: read `partner_order_id`; missing id, unknown job, or a
job not in `AWAITING_PAYMENT` are all acknowledged `{"result": "success"}`
with no store change; an `AWAITING_PAYMENT` job is flipped to `PENDING`.
No other field of the notification is consulted. -/
def payment_notify (s : JobStore) (data : PaymentNotification) :
    JobStore × HttpResponse :=
  match data.partner_order_id with
  | none => (s, ⟨200, "success"⟩)
  | some order_id =>
    match storeGet s order_id with
    | none => (s, ⟨200, "success"⟩)
    | some job =>
      if job.status = "AWAITING_PAYMENT" then
        (storeSetStatus s order_id "PENDING", ⟨200, "success"⟩)
      else
        (s, ⟨200, "success"⟩)

/-- The JSON body of `GET /api/get-task`: either the claimed job's fields or
the all-null sentinel `{"job_id": None, "prompt": None, "chat_id": None}`. -/
structure TaskResponse where
  job_id : Option String
  prompt : Option String
  chat_id : Option Int
deriving Repr, DecidableEq

/-- `GET /api/get-task` (`get_task` in `server.py`): iterate `JOBS.items()`
in insertion order; the first record with status `PENDING` is set to
`RUNNING` in place and its id, prompt and chat_id are returned; if none is
`PENDING` the all-null sentinel is returned and the store is untouched. -/
def get_task : JobStore → JobStore × TaskResponse
  | [] => ([], ⟨none, none, none⟩)
  | (job_id, task_details) :: rest =>
    if task_details.status = "PENDING" then
      ((job_id, { task_details with status := "RUNNING" }) :: rest,
        ⟨some job_id, some task_details.prompt, some task_details.chat_id⟩)
    else
      let r := get_task rest
      ((job_id, task_details) :: r.1, r.2)

/-- The pydantic request model `TaskUpdateRequest` of `POST /api/update-task`. -/
structure TaskUpdateRequest where
  job_id : String
  status : String
  result_url : Option String
deriving Repr, DecidableEq

/-- Outcome of `POST /api/update-task`: either the 200 body
`{"message": "Task status updated"}` or the `HTTPException` 404
`"Task not found"`. -/
inductive UpdateTaskResult
  | ok
  | notFound
deriving Repr, DecidableEq

/-- `POST /api/update-task` (`update_task` in `server.py`): unknown
`job_id` raises 404; otherwise `job["status"] = update_request.status` is
performed unconditionally — the requested status string is stored whatever
it is, with no lifecycle validation. -/
def update_task (s : JobStore) (req : TaskUpdateRequest) :
    JobStore × UpdateTaskResult :=
  match storeGet s req.job_id with
  | none => (s, .notFound)
  | some _ => (storeSetStatus s req.job_id req.status, .ok)

/-- The `/vtuber` command handler (`vtuber_command` in `server.py`) as its
effect on `JOBS`.  `prompt` is the joined argument text; `job_id` is the
freshly generated uuid; `qr_code_url` is what `create_payment_qr` returned.
An empty prompt returns early; a failed QR creation (`none`) sends an
apology and creates nothing; otherwise the job is inserted with status
`AWAITING_PAYMENT`. -/
def vtuber_command (s : JobStore) (prompt : String) (job_id : String)
    (chat_id : Int) (qr_code_url : Option String) : JobStore :=
  if prompt = "" then s
  else
    match qr_code_url with
    | some _ => storeInsert s job_id ⟨prompt, chat_id, "AWAITING_PAYMENT"⟩
    | none => s

/-- One inbound request against the store, for reachability statements:
job creation, payment notification, worker claim, worker status report. -/
inductive Op
  | create (prompt : String) (job_id : String) (chat_id : Int) (qr : Option String)
  | pay (data : PaymentNotification)
  | claim
  | update (req : TaskUpdateRequest)
deriving Repr, DecidableEq

/-- Effect of one request on the store (responses dropped). -/
def applyOp (s : JobStore) : Op → JobStore
  | .create prompt job_id chat_id qr => vtuber_command s prompt job_id chat_id qr
  | .pay data => (payment_notify s data).1
  | .claim => (get_task s).1
  | .update req => (update_task s req).1

/-- Effect of a sequence of requests, first request first. -/
def applyOps (s : JobStore) : List Op → JobStore
  | [] => s
  | op :: ops => applyOps (applyOp s op) ops

/-- `n` successive `get_task` calls: final store and the list of responses. -/
def runClaims : Nat → JobStore → JobStore × List TaskResponse
  | 0, s => (s, [])
  | n + 1, s =>
    let r := get_task s
    let rest := runClaims n r.1
    (rest.1, r.2 :: rest.2)

/-- The ids of the non-sentinel responses in a response list. -/
def claimedIds (rs : List TaskResponse) : List String :=
  rs.filterMap (·.job_id)

/-- The single legal lifecycle step relation of the spec's §4.1 graph:
stay put, or move along one edge
`AWAITING_PAYMENT → PENDING → RUNNING → {COMPLETED, FAILED}`. -/
def stepOK (a b : String) : Prop :=
  b = a ∨
    (a = "AWAITING_PAYMENT" ∧ b = "PENDING") ∨
    (a = "PENDING" ∧ b = "RUNNING") ∨
    (a = "RUNNING" ∧ (b = "COMPLETED" ∨ b = "FAILED"))

instance (a b : String) : Decidable (stepOK a b) := by
  unfold stepOK; infer_instance

/-! ## Store lemmas -/

theorem storeGet_nil (j : String) : storeGet [] j = none := rfl

theorem storeGet_cons (p : String × Job) (s : JobStore) (j : String) :
    storeGet (p :: s) j = if p.1 = j then some p.2 else storeGet s j := by
  by_cases h : p.1 = j <;> simp [storeGet, h]

theorem storeGet_of_not_mem_keys {s : JobStore} {j : String}
    (h : j ∉ storeKeys s) : storeGet s j = none := by
  induction s with
  | nil => rfl
  | cons p s ih =>
    simp only [storeKeys, List.map_cons, List.mem_cons, not_or] at h
    rw [storeGet_cons, if_neg (fun hp => h.1 hp.symm)]
    exact ih (by simpa [storeKeys] using h.2)

theorem storeGet_first {pre : JobStore} {j : String} (a : Job) (post : JobStore)
    (h : j ∉ storeKeys pre) : storeGet (pre ++ (j, a) :: post) j = some a := by
  induction pre with
  | nil => simp [storeGet_cons]
  | cons p pre ih =>
    simp only [storeKeys, List.map_cons, List.mem_cons, not_or] at h
    rw [List.cons_append, storeGet_cons, if_neg (fun hp => h.1 hp.symm)]
    exact ih (by simpa [storeKeys] using h.2)

theorem storeGet_middle_ne (pre : JobStore) {j k : String} (a b : Job)
    (post : JobStore) (hk : k ≠ j) :
    storeGet (pre ++ (j, a) :: post) k = storeGet (pre ++ (j, b) :: post) k := by
  induction pre with
  | nil =>
    rw [List.nil_append, List.nil_append, storeGet_cons, storeGet_cons,
      if_neg (Ne.symm hk), if_neg (Ne.symm hk)]
  | cons p pre ih =>
    rw [List.cons_append, List.cons_append, storeGet_cons, storeGet_cons, ih]

theorem storeKeys_setStatus (s : JobStore) (id st : String) :
    storeKeys (storeSetStatus s id st) = storeKeys s := by
  induction s with
  | nil => rfl
  | cons p s ih =>
    by_cases h : p.1 = id <;>
      simp [storeSetStatus, storeKeys, h] <;>
      simpa [storeSetStatus, storeKeys] using ih

theorem storeGet_setStatus_self {s : JobStore} {id : String} {job : Job}
    (st : String) (h : storeGet s id = some job) :
    storeGet (storeSetStatus s id st) id = some { job with status := st } := by
  induction s with
  | nil => simp [storeGet] at h
  | cons p s ih =>
    rw [storeGet_cons] at h
    by_cases hp : p.1 = id
    · rw [if_pos hp] at h
      simp only [storeSetStatus, List.map_cons, if_pos hp]
      rw [storeGet_cons, if_pos hp]
      simp only [Option.some.injEq] at h
      simp [h]
    · rw [if_neg hp] at h
      simp only [storeSetStatus, List.map_cons, if_neg hp]
      rw [storeGet_cons, if_neg hp]
      exact ih h

theorem storeGet_setStatus_ne (s : JobStore) {id k : String} (st : String)
    (hk : k ≠ id) : storeGet (storeSetStatus s id st) k = storeGet s k := by
  induction s with
  | nil => rfl
  | cons p s ih =>
    by_cases hp : p.1 = id
    · simp only [storeSetStatus, List.map_cons, if_pos hp]
      rw [storeGet_cons, storeGet_cons, if_neg (hp ▸ fun h => hk h.symm),
        if_neg (hp ▸ fun h => hk h.symm)]
      exact ih
    · simp only [storeSetStatus, List.map_cons, if_neg hp]
      rw [storeGet_cons, storeGet_cons]
      by_cases hpk : p.1 = k
      · simp [hpk]
      · rw [if_neg hpk, if_neg hpk]; exact ih

theorem storeGet_append_of_some {s : JobStore} {j : String} {job : Job}
    (t : JobStore) (h : storeGet s j = some job) :
    storeGet (s ++ t) j = some job := by
  induction s with
  | nil => simp [storeGet] at h
  | cons p s ih =>
    rw [storeGet_cons] at h
    rw [List.cons_append, storeGet_cons]
    by_cases hp : p.1 = j
    · rwa [if_pos hp] at h ⊢
    · rw [if_neg hp] at h ⊢; exact ih h

theorem countPending_nil : countPending [] = 0 := rfl

theorem countPending_cons (p : String × Job) (s : JobStore) :
    countPending (p :: s) =
      (if p.2.status = "PENDING" then 1 else 0) + countPending s := by
  by_cases h : p.2.status = "PENDING" <;>
    simp [countPending, h, Nat.add_comm]

theorem countPending_append (s t : JobStore) :
    countPending (s ++ t) = countPending s + countPending t := by
  simp [countPending]

theorem countPending_eq_zero {s : JobStore} :
    countPending s = 0 ↔ ∀ p ∈ s, p.2.status ≠ "PENDING" := by
  simp [countPending, List.length_eq_zero, List.filter_eq_nil_iff]

/-! ## get_task lemmas -/

theorem get_task_no_pending {s : JobStore}
    (h : ∀ p ∈ s, p.2.status ≠ "PENDING") :
    get_task s = (s, ⟨none, none, none⟩) := by
  induction s with
  | nil => rfl
  | cons p s ih =>
    obtain ⟨j, job⟩ := p
    have hj : job.status ≠ "PENDING" := h (j, job) (List.mem_cons_self _ _)
    simp only [get_task, if_neg hj]
    rw [ih (fun q hq => h q (List.mem_cons_of_mem _ hq))]

theorem get_task_first_pending {pre : JobStore} (j : String) (job : Job)
    (post : JobStore) (hpre : ∀ p ∈ pre, p.2.status ≠ "PENDING")
    (hj : job.status = "PENDING") :
    get_task (pre ++ (j, job) :: post) =
      (pre ++ (j, { job with status := "RUNNING" }) :: post,
        ⟨some j, some job.prompt, some job.chat_id⟩) := by
  induction pre with
  | nil => simp [get_task, hj]
  | cons p pre ih =>
    obtain ⟨k, kj⟩ := p
    have hk : kj.status ≠ "PENDING" := hpre (k, kj) (List.mem_cons_self _ _)
    simp only [List.cons_append, get_task, if_neg hk, List.append_eq]
    rw [ih (fun q hq => hpre q (List.mem_cons_of_mem _ hq))]

theorem get_task_none_fst {s : JobStore}
    (h : (get_task s).2.job_id = none) : (get_task s).1 = s := by
  induction s with
  | nil => rfl
  | cons p s ih =>
    obtain ⟨j, job⟩ := p
    by_cases hj : job.status = "PENDING"
    · simp [get_task, hj] at h
    · simp only [get_task, if_neg hj] at h ⊢
      rw [ih h]

theorem get_task_none_no_pending {s : JobStore}
    (h : (get_task s).2.job_id = none) :
    ∀ p ∈ s, p.2.status ≠ "PENDING" := by
  induction s with
  | nil => simp
  | cons p s ih =>
    obtain ⟨j, job⟩ := p
    by_cases hj : job.status = "PENDING"
    · simp [get_task, hj] at h
    · simp only [get_task, if_neg hj] at h
      intro q hq
      rcases List.mem_cons.mp hq with hq | hq
      · subst hq; exact hj
      · exact ih h q hq

theorem get_task_some_decomp {s : JobStore} {j : String}
    (h : (get_task s).2.job_id = some j) :
    ∃ pre job post,
      s = pre ++ (j, job) :: post ∧
      (∀ p ∈ pre, p.2.status ≠ "PENDING") ∧
      job.status = "PENDING" ∧
      (get_task s).1 = pre ++ (j, { job with status := "RUNNING" }) :: post ∧
      (get_task s).2 = ⟨some j, some job.prompt, some job.chat_id⟩ := by
  induction s with
  | nil => simp [get_task] at h
  | cons p s ih =>
    obtain ⟨k, kj⟩ := p
    by_cases hk : kj.status = "PENDING"
    · simp only [get_task, if_pos hk] at h
      cases h
      exact ⟨[], kj, s, by simp, by simp, hk, by simp [get_task, hk],
        by simp [get_task, hk]⟩
    · simp only [get_task, if_neg hk] at h
      obtain ⟨pre, job, post, hs, hpre, hj, hfst, hsnd⟩ := ih h
      refine ⟨(k, kj) :: pre, job, post, by rw [List.cons_append, hs], ?_, hj,
        ?_, ?_⟩
      · intro q hq
        rcases List.mem_cons.mp hq with hq | hq
        · subst hq; exact hk
        · exact hpre q hq
      · simp only [get_task, if_neg hk, List.cons_append]
        rw [hfst]
      · simp only [get_task, if_neg hk]
        exact hsnd

theorem get_task_some_of_pending {s : JobStore} (h : 0 < countPending s) :
    ∃ j job, (j, job) ∈ s ∧ job.status = "PENDING" ∧
      (get_task s).2 = ⟨some j, some job.prompt, some job.chat_id⟩ := by
  induction s with
  | nil => simp [countPending] at h
  | cons p s ih =>
    obtain ⟨k, kj⟩ := p
    by_cases hk : kj.status = "PENDING"
    · exact ⟨k, kj, List.mem_cons_self _ _, hk, by simp [get_task, hk]⟩
    · rw [countPending_cons, if_neg hk, Nat.zero_add] at h
      obtain ⟨j, job, hmem, hj, hresp⟩ := ih h
      exact ⟨j, job, List.mem_cons_of_mem _ hmem, hj,
        by simp only [get_task, if_neg hk]; exact hresp⟩

theorem get_task_keys (s : JobStore) :
    storeKeys (get_task s).1 = storeKeys s := by
  induction s with
  | nil => rfl
  | cons p s ih =>
    obtain ⟨j, job⟩ := p
    by_cases hj : job.status = "PENDING"
    · simp [get_task, hj, storeKeys]
    · simp only [get_task, if_neg hj, storeKeys, List.map_cons]
      rw [show (List.map Prod.fst (get_task s).1) = storeKeys (get_task s).1
        from rfl, ih]
      rfl

/-! ## runClaims lemmas -/

theorem claimed_mem_pending :
    ∀ (n : Nat) (s : JobStore) (j : String), (storeKeys s).Nodup →
      j ∈ claimedIds (runClaims n s).2 →
      ∃ job, storeGet s j = some job ∧ job.status = "PENDING" := by
  intro n
  induction n with
  | zero => intro s j _ h; simp [runClaims, claimedIds] at h
  | succ n ih =>
    intro s j hnd h
    simp only [runClaims, claimedIds, List.filterMap_cons] at h
    cases hc : (get_task s).2.job_id with
    | none =>
      rw [hc] at h
      rw [get_task_none_fst hc] at h
      exact ih s j hnd h
    | some k =>
      rw [hc] at h
      obtain ⟨pre, job, post, hs, hpre, hj, hfst, _⟩ := get_task_some_decomp hc
      have hkeys : storeKeys s = storeKeys pre ++ k :: storeKeys post := by
        rw [hs]; simp [storeKeys]
      have hknp : k ∉ storeKeys pre := by
        rw [hkeys] at hnd
        intro hmem
        exact (List.disjoint_of_nodup_append hnd) hmem (List.mem_cons_self _ _)
      rcases List.mem_cons.mp h with h | h
      · subst h
        exact ⟨job, by rw [hs]; exact storeGet_first job post hknp, hj⟩
      · have hnd1 : (storeKeys (get_task s).1).Nodup := by
          rw [get_task_keys]; exact hnd
        obtain ⟨job', hget', hst'⟩ := ih (get_task s).1 j hnd1 h
        by_cases hjk : j = k
        · subst hjk
          rw [hfst, storeGet_first _ post hknp] at hget'
          cases hget'
          simp at hst'
        · refine ⟨job', ?_, hst'⟩
          rw [hfst] at hget'
          rw [hs]
          rw [storeGet_middle_ne pre job { job with status := "RUNNING" } post hjk]
          exact hget'

theorem runClaims_sound :
    ∀ (n : Nat) (s : JobStore), (storeKeys s).Nodup →
      (claimedIds (runClaims n s).2).Nodup ∧
      (claimedIds (runClaims n s).2).length ≤ countPending s := by
  intro n
  induction n with
  | zero => intro s _; simp [runClaims, claimedIds]
  | succ n ih =>
    intro s hnd
    simp only [runClaims, claimedIds, List.filterMap_cons]
    cases hc : (get_task s).2.job_id with
    | none =>
      rw [get_task_none_fst hc]
      exact ih s hnd
    | some k =>
      obtain ⟨pre, job, post, hs, hpre, hj, hfst, _⟩ := get_task_some_decomp hc
      have hkeys : storeKeys s = storeKeys pre ++ k :: storeKeys post := by
        rw [hs]; simp [storeKeys]
      have hknp : k ∉ storeKeys pre := by
        rw [hkeys] at hnd
        intro hmem
        exact (List.disjoint_of_nodup_append hnd) hmem (List.mem_cons_self _ _)
      have hnd1 : (storeKeys (get_task s).1).Nodup := by
        rw [get_task_keys]; exact hnd
      obtain ⟨ihnd, ihlen⟩ := ih (get_task s).1 hnd1
      have hknotin : k ∉ claimedIds (runClaims n (get_task s).1).2 := by
        intro hmem
        obtain ⟨job', hget', hst'⟩ :=
          claimed_mem_pending n (get_task s).1 k hnd1 hmem
        rw [hfst, storeGet_first _ post hknp] at hget'
        cases hget'
        simp at hst'
      have hcount : countPending (get_task s).1 + 1 = countPending s := by
        rw [hfst, hs, countPending_append, countPending_append,
          countPending_cons, countPending_cons]
        simp [hj]
        omega
      constructor
      · exact List.Nodup.cons hknotin ihnd
      · rw [List.length_cons, ← hcount]
        exact Nat.succ_le_succ ihlen

/-! ## Claim theorems -/

/-- Claim C1: over any sequence of `get_task` calls against a store with
unique job ids, the non-sentinel responses name pairwise-distinct jobs (a
claimed job is never offered again, so each `PENDING→RUNNING` transition
happens at most once), their number never exceeds the number of jobs that
were `PENDING`, and every job handed out was `PENDING` at the start. -/
theorem claim_C1_at_most_once :
    ∀ (n : Nat) (s : JobStore), (storeKeys s).Nodup →
      (claimedIds (runClaims n s).2).Nodup ∧
      (claimedIds (runClaims n s).2).length ≤ countPending s ∧
      ∀ j ∈ claimedIds (runClaims n s).2,
        ∃ job, storeGet s j = some job ∧ job.status = "PENDING" := by
  intro n s hnd
  obtain ⟨h1, h2⟩ := runClaims_sound n s hnd
  exact ⟨h1, h2, fun j hj => claimed_mem_pending n s j hnd hj⟩

/-- Witness for C1 at a concrete three-call run over a two-job store. -/
theorem claim_C1_witness :
    (claimedIds (runClaims 3
      [("a", ⟨"p1", 1, "PENDING"⟩), ("b", ⟨"p2", 2, "RUNNING"⟩)]).2).Nodup ∧
    (claimedIds (runClaims 3
      [("a", ⟨"p1", 1, "PENDING"⟩), ("b", ⟨"p2", 2, "RUNNING"⟩)]).2).length ≤
      countPending [("a", ⟨"p1", 1, "PENDING"⟩), ("b", ⟨"p2", 2, "RUNNING"⟩)] ∧
    ∀ j ∈ claimedIds (runClaims 3
      [("a", ⟨"p1", 1, "PENDING"⟩), ("b", ⟨"p2", 2, "RUNNING"⟩)]).2,
      ∃ job, storeGet
        [("a", ⟨"p1", 1, "PENDING"⟩), ("b", ⟨"p2", 2, "RUNNING"⟩)] j =
          some job ∧ job.status = "PENDING" :=
  claim_C1_at_most_once 3
    [("a", ⟨"p1", 1, "PENDING"⟩), ("b", ⟨"p2", 2, "RUNNING"⟩)] (by decide)

/-- Claim C2 counterexample: the claim says a `COMPLETED → RUNNING` request
must be rejected, but `update_task` on a `COMPLETED` job with requested
status `RUNNING` succeeds and stores `RUNNING`. -/
theorem claim_C2_counterexample :
    update_task [("j1", ⟨"a prompt", 7, "COMPLETED"⟩)]
        ⟨"j1", "RUNNING", none⟩ =
      ([("j1", ⟨"a prompt", 7, "RUNNING"⟩)], .ok) := rfl

/-- Claim C2 amended: `update_task` validates only that the job id exists;
for an existing job it unconditionally stores whatever status string the
request carries — legal successor or not, `COMPLETED`/`FAILED` or any other
string — and reports success. -/
theorem claim_C2_amended :
    ∀ (s : JobStore) (req : TaskUpdateRequest) (job : Job),
      storeGet s req.job_id = some job →
      update_task s req = (storeSetStatus s req.job_id req.status, .ok) ∧
      storeGet (update_task s req).1 req.job_id =
        some { job with status := req.status } := by
  intro s req job h
  refine ⟨by simp [update_task, h], ?_⟩
  simp only [update_task, h]
  exact storeGet_setStatus_self req.status h

/-- Witness for the amended C2 at a concrete store and request. -/
theorem claim_C2_witness :
    update_task [("j1", ⟨"a prompt", 7, "RUNNING"⟩)]
        ⟨"j1", "COMPLETED", some "http://r"⟩ =
      (storeSetStatus [("j1", ⟨"a prompt", 7, "RUNNING"⟩)] "j1" "COMPLETED",
        .ok) ∧
    storeGet (update_task [("j1", ⟨"a prompt", 7, "RUNNING"⟩)]
        ⟨"j1", "COMPLETED", some "http://r"⟩).1 "j1" =
      some ⟨"a prompt", 7, "COMPLETED"⟩ :=
  claim_C2_amended [("j1", ⟨"a prompt", 7, "RUNNING"⟩)]
    ⟨"j1", "COMPLETED", some "http://r"⟩ ⟨"a prompt", 7, "RUNNING"⟩ rfl

/-- Claim C3 counterexample: a reachable `COMPLETED` job is mutated again —
the request sequence create, pay, claim, report-COMPLETED reaches a
`COMPLETED` job, and one further `update_task` drags it back to `RUNNING`,
reversing the graph and mutating a terminal job. -/
theorem claim_C3_counterexample :
    storeGet (applyOps []
      [Op.create "a cat girl" "j1" 7 (some "https://qr"),
        Op.pay ⟨some "j1", some "sig", some 99⟩, Op.claim,
        Op.update ⟨"j1", "COMPLETED", some "http://res"⟩]) "j1" =
      some ⟨"a cat girl", 7, "COMPLETED"⟩ ∧
    storeGet (applyOps []
      [Op.create "a cat girl" "j1" 7 (some "https://qr"),
        Op.pay ⟨some "j1", some "sig", some 99⟩, Op.claim,
        Op.update ⟨"j1", "COMPLETED", some "http://res"⟩,
        Op.update ⟨"j1", "RUNNING", none⟩]) "j1" =
      some ⟨"a cat girl", 7, "RUNNING"⟩ :=
  ⟨rfl, rfl⟩

/-- Claim C3 amended: job creation (with a fresh id), payment notify and
`get_task` do move each job's status only forward along
`AWAITING_PAYMENT → PENDING → RUNNING → COMPLETED/FAILED` (one edge or
stay put), never touching prompt or originator — but `update_task` stores
any requested status, so with it in the mix terminal jobs can be mutated
and transitions reversed (see the counterexample). -/
theorem claim_C3_amended :
    ∀ (s : JobStore) (op : Op), (storeKeys s).Nodup →
      (∀ prompt jid cid qr, op = .create prompt jid cid qr →
        jid ∉ storeKeys s) →
      (∀ req, op ≠ .update req) →
      ∀ j job, storeGet s j = some job →
        ∃ job', storeGet (applyOp s op) j = some job' ∧
          job'.prompt = job.prompt ∧ job'.chat_id = job.chat_id ∧
          stepOK job.status job'.status := by
  intro s op hnd hfresh hnoupd j job h
  cases op with
  | create prompt jid cid qr =>
    have hjid : jid ∉ storeKeys s := hfresh prompt jid cid qr rfl
    by_cases hp : prompt = ""
    · exact ⟨job, by simp [applyOp, vtuber_command, hp, h], rfl, rfl, Or.inl rfl⟩
    · cases qr with
      | none => exact ⟨job, by simp [applyOp, vtuber_command, hp, h], rfl, rfl,
          Or.inl rfl⟩
      | some url =>
        have hfind : (s.find? (fun p => p.1 = jid)) = none := by
          have := storeGet_of_not_mem_keys hjid
          simpa [storeGet, Option.map_eq_none'] using this
        refine ⟨job, ?_, rfl, rfl, Or.inl rfl⟩
        simp only [applyOp, vtuber_command, if_neg hp, storeInsert, hfind,
          Option.isSome_none, Bool.false_eq_true, if_false]
        exact storeGet_append_of_some _ h
  | pay d =>
    cases hd : d.partner_order_id with
    | none => exact ⟨job, by simp [applyOp, payment_notify, hd, h], rfl, rfl,
        Or.inl rfl⟩
    | some oid =>
      cases hg : storeGet s oid with
      | none => exact ⟨job, by simp [applyOp, payment_notify, hd, hg, h], rfl,
          rfl, Or.inl rfl⟩
      | some job0 =>
        by_cases hst : job0.status = "AWAITING_PAYMENT"
        · by_cases hj : j = oid
          · subst hj
            rw [h] at hg
            cases hg
            refine ⟨{ job with status := "PENDING" }, ?_, rfl, rfl, ?_⟩
            · simp only [applyOp, payment_notify, hd, h, hst, if_true]
              exact storeGet_setStatus_self "PENDING" h
            · exact Or.inr (Or.inl ⟨hst, rfl⟩)
          · refine ⟨job, ?_, rfl, rfl, Or.inl rfl⟩
            simp only [applyOp, payment_notify, hd, hg, hst, if_true]
            rw [storeGet_setStatus_ne s "PENDING" hj]
            exact h
        · exact ⟨job, by simp [applyOp, payment_notify, hd, hg, hst, h], rfl,
            rfl, Or.inl rfl⟩
  | claim =>
    cases hc : (get_task s).2.job_id with
    | none => exact ⟨job, by simp [applyOp, get_task_none_fst hc, h], rfl, rfl,
        Or.inl rfl⟩
    | some k =>
      obtain ⟨pre, jobk, post, hs, hpre, hjk, hfst, _⟩ := get_task_some_decomp hc
      have hknp : k ∉ storeKeys pre := by
        rw [hs] at hnd
        simp only [storeKeys, List.map_append, List.map_cons] at hnd
        intro hmem
        exact (List.disjoint_of_nodup_append hnd) hmem (List.mem_cons_self _ _)
      by_cases hj : j = k
      · subst hj
        rw [hs, storeGet_first jobk post hknp] at h
        cases h
        refine ⟨{ job with status := "RUNNING" }, ?_, rfl, rfl, ?_⟩
        · show storeGet (get_task s).1 j = _
          rw [hfst]
          exact storeGet_first _ post hknp
        · exact Or.inr (Or.inr (Or.inl ⟨hjk, rfl⟩))
      · refine ⟨job, ?_, rfl, rfl, Or.inl rfl⟩
        show storeGet (get_task s).1 j = some job
        rw [hfst, storeGet_middle_ne pre
          { jobk with status := "RUNNING" } jobk post hj, ← hs]
        exact h
  | update req => exact absurd rfl (hnoupd req)

/-- Witness for the amended C3: a payment notification moves a concrete
`AWAITING_PAYMENT` job one legal step. -/
theorem claim_C3_witness :
    ∃ job', storeGet (applyOp [("j1", ⟨"a cat girl", 5, "AWAITING_PAYMENT"⟩)]
        (Op.pay ⟨some "j1", none, none⟩)) "j1" = some job' ∧
      job'.prompt = (⟨"a cat girl", 5, "AWAITING_PAYMENT"⟩ : Job).prompt ∧
      job'.chat_id = (⟨"a cat girl", 5, "AWAITING_PAYMENT"⟩ : Job).chat_id ∧
      stepOK (⟨"a cat girl", 5, "AWAITING_PAYMENT"⟩ : Job).status job'.status :=
  claim_C3_amended [("j1", ⟨"a cat girl", 5, "AWAITING_PAYMENT"⟩)]
    (Op.pay ⟨some "j1", none, none⟩) (by decide)
    (by intro _ _ _ _ h; cases h) (by intro _ h; cases h)
    "j1" ⟨"a cat girl", 5, "AWAITING_PAYMENT"⟩ rfl

/-- Claim C4, evaluated at the failing input: the claim requires a
notification whose `sign` does not match to be rejected with 400 and no
state change, but `payment_notify` reads only `partner_order_id` — here an
`AWAITING_PAYMENT` job is flipped to `PENDING` and the response is
200/success although `sign` is garbage; in general the handler's outcome is
identical whatever `sign` and `total_fee` carry. -/
theorem claim_C4_code_eval :
    payment_notify [("j1", ⟨"a cat girl", 7, "AWAITING_PAYMENT"⟩)]
        ⟨some "j1", some "ffffffffffffffff", some 99⟩ =
      ([("j1", ⟨"a cat girl", 7, "PENDING"⟩)], ⟨200, "success"⟩) ∧
    ∀ (s : JobStore) (d : PaymentNotification),
      payment_notify s d = payment_notify s ⟨d.partner_order_id, none, none⟩ :=
  ⟨rfl, fun _ _ => rfl⟩

/-- Claim C5, evaluated at the failing input: with the default price 0.99
(99 smallest units), a notification paying 49 — half the expected price —
is not ignored as the claim requires: `payment_notify` never reads the
amount, so the job still moves from `AWAITING_PAYMENT` to `PENDING`. -/
theorem claim_C5_code_eval :
    payment_notify [("j1", ⟨"a cat girl", 7, "AWAITING_PAYMENT"⟩)]
        ⟨some "j1", some "validsignature00", some 49⟩ =
      ([("j1", ⟨"a cat girl", 7, "PENDING"⟩)], ⟨200, "success"⟩) := rfl

/-- Claim C6: a notification referencing a job that is no longer (or not
yet) `AWAITING_PAYMENT` is acknowledged with 200/success and the whole
store is left exactly as it was. -/
theorem claim_C6_duplicate_ack :
    ∀ (s : JobStore) (d : PaymentNotification) (oid : String) (job : Job),
      d.partner_order_id = some oid → storeGet s oid = some job →
      job.status ≠ "AWAITING_PAYMENT" →
      payment_notify s d = (s, ⟨200, "success"⟩) := by
  intro s d oid job h1 h2 h3
  simp [payment_notify, h1, h2, h3]

/-- Witness for C6: a duplicate notification for a `PENDING` job. -/
theorem claim_C6_witness :
    payment_notify [("j1", ⟨"a cat girl", 7, "PENDING"⟩)]
        ⟨some "j1", some "sig", some 99⟩ =
      ([("j1", ⟨"a cat girl", 7, "PENDING"⟩)], ⟨200, "success"⟩) :=
  claim_C6_duplicate_ack [("j1", ⟨"a cat girl", 7, "PENDING"⟩)]
    ⟨some "j1", some "sig", some 99⟩ "j1" ⟨"a cat girl", 7, "PENDING"⟩
    rfl rfl (by decide)

/-- Claim C7: `update_task` on a job id absent from the store yields the
404 outcome, whatever status the request carries, and the store is
returned unchanged. -/
theorem claim_C7_not_found :
    ∀ (s : JobStore) (req : TaskUpdateRequest),
      storeGet s req.job_id = none →
      update_task s req = (s, .notFound) := by
  intro s req h
  simp [update_task, h]

/-- Witness for C7: an id never created, against a nonempty store. -/
theorem claim_C7_witness :
    update_task [("j1", ⟨"a cat girl", 7, "PENDING"⟩)]
        ⟨"nosuchjob", "COMPLETED", none⟩ =
      ([("j1", ⟨"a cat girl", 7, "PENDING"⟩)], .notFound) :=
  claim_C7_not_found [("j1", ⟨"a cat girl", 7, "PENDING"⟩)]
    ⟨"nosuchjob", "COMPLETED", none⟩ (by decide)

/-- Claim C8: with no `PENDING` job, `get_task` returns the all-null
sentinel and the untouched store (no blocking exists to model: the
function is total); with at least one `PENDING` job it returns the id,
prompt and chat_id of one `PENDING` job of the store. -/
theorem claim_C8_sentinel_or_claim :
    ∀ s : JobStore,
      (countPending s = 0 → get_task s = (s, ⟨none, none, none⟩)) ∧
      (0 < countPending s → ∃ j job, (j, job) ∈ s ∧ job.status = "PENDING" ∧
        (get_task s).2 = ⟨some j, some job.prompt, some job.chat_id⟩) :=
  fun _ => ⟨fun h => get_task_no_pending (countPending_eq_zero.mp h),
    fun h => get_task_some_of_pending h⟩

/-- Witness for C8: one store with no pending job, one with a pending job. -/
theorem claim_C8_witness :
    get_task [("j1", ⟨"p", 3, "RUNNING"⟩)] =
      ([("j1", ⟨"p", 3, "RUNNING"⟩)], ⟨none, none, none⟩) ∧
    ∃ (j : String) (job : Job), (j, job) ∈ [("j2", ⟨"q", 4, "PENDING"⟩)] ∧
      job.status = "PENDING" ∧
      (get_task [("j2", ⟨"q", 4, "PENDING"⟩)]).2 =
        ⟨some j, some job.prompt, some job.chat_id⟩ :=
  ⟨(claim_C8_sentinel_or_claim [("j1", ⟨"p", 3, "RUNNING"⟩)]).1 (by decide),
    (claim_C8_sentinel_or_claim [("j2", ⟨"q", 4, "PENDING"⟩)]).2 (by decide)⟩

/-- Claim C9: the `/vtuber` handler creates no record when QR creation
fails (the fresh job id is simply dropped), and when it does create one —
nonempty prompt, QR url obtained — the record is appended with status
`AWAITING_PAYMENT` and the rest of the store untouched. -/
theorem claim_C9_create_gated :
    ∀ (s : JobStore) (prompt job_id : String) (chat_id : Int),
      (vtuber_command s prompt job_id chat_id none = s) ∧
      (∀ url, prompt ≠ "" → job_id ∉ storeKeys s →
        vtuber_command s prompt job_id chat_id (some url) =
          s ++ [(job_id, ⟨prompt, chat_id, "AWAITING_PAYMENT"⟩)]) := by
  intro s prompt jid cid
  constructor
  · by_cases hp : prompt = "" <;> simp [vtuber_command, hp]
  · intro url hp hjid
    have hfind : (s.find? (fun p => p.1 = jid)) = none := by
      have := storeGet_of_not_mem_keys hjid
      simpa [storeGet, Option.map_eq_none'] using this
    simp [vtuber_command, hp, storeInsert, hfind]

/-- Witness for C9: failed QR creation leaves the store alone; successful
QR creation appends an `AWAITING_PAYMENT` record. -/
theorem claim_C9_witness :
    (vtuber_command [("j1", ⟨"p", 3, "PENDING"⟩)] "a dog" "j2" 9 none =
      [("j1", ⟨"p", 3, "PENDING"⟩)]) ∧
    (vtuber_command [("j1", ⟨"p", 3, "PENDING"⟩)] "a dog" "j2" 9
        (some "https://qr") =
      [("j1", ⟨"p", 3, "PENDING"⟩), ("j2", ⟨"a dog", 9, "AWAITING_PAYMENT"⟩)]) :=
  ⟨(claim_C9_create_gated [("j1", ⟨"p", 3, "PENDING"⟩)] "a dog" "j2" 9).1,
    (claim_C9_create_gated [("j1", ⟨"p", 3, "PENDING"⟩)] "a dog" "j2" 9).2
      "https://qr" (by decide) (by decide)⟩

/-- Claim C10: `get_task` walks the store in insertion order, so the job
it claims is exactly the earliest-inserted `PENDING` job: whenever every
record before position of `(j, job)` is not `PENDING` and `job` is, the
claimed job is `j` and only its record is rewritten to `RUNNING`. -/
theorem claim_C10_fifo :
    ∀ (pre : JobStore) (j : String) (job : Job) (post : JobStore),
      (∀ p ∈ pre, p.2.status ≠ "PENDING") → job.status = "PENDING" →
      get_task (pre ++ (j, job) :: post) =
        (pre ++ (j, { job with status := "RUNNING" }) :: post,
          ⟨some j, some job.prompt, some job.chat_id⟩) :=
  fun _ j job post h1 h2 => get_task_first_pending j job post h1 h2

/-- Witness for C10: with an earlier `RUNNING` job and two `PENDING` jobs,
the earlier pending one is claimed, the later one untouched. -/
theorem claim_C10_witness :
    get_task [("a", ⟨"p1", 1, "RUNNING"⟩), ("b", ⟨"p2", 2, "PENDING"⟩),
        ("c", ⟨"p3", 3, "PENDING"⟩)] =
      ([("a", ⟨"p1", 1, "RUNNING"⟩), ("b", ⟨"p2", 2, "RUNNING"⟩),
        ("c", ⟨"p3", 3, "PENDING"⟩)],
        ⟨some "b", some "p2", some (2 : Int)⟩) :=
  claim_C10_fifo [("a", ⟨"p1", 1, "RUNNING"⟩)] "b" ⟨"p2", 2, "PENDING"⟩
    [("c", ⟨"p3", 3, "PENDING"⟩)] (by decide) (by decide)

end Tinfernew
